import Mathlib

/-!
# Altbot metrics recorder (`metrics.go`)

A shallow embedding of `metrics.go`: the identifier anonymizer `hashUserID`
(SHA-256 followed by lowercase hex), the recorder `MetricsManager` with its
load-and-migrate step, the logging API, the power-consumption formula, the
whole-file flush `saveToFile`, and the background flush loop `run` / `stop`
as a step function over atomic actions.

Conventions of the embedding.

* Go strings are Lean strings; `goLen` is Go's `len`, the number of bytes.
* `uint32` and `uint64` values are natural numbers reduced modulo `2^32` and
  `2^64` at every operation that can overflow.
* `float64` values are rationals, `int64` values are integers.
* `time.Time` values are integers (an instant in nanoseconds).
* The JSON encoder and decoder of the standard library are a parameter
  (`Codec`); every theorem holds for all codecs.
* File-system failures are inputs of the operations that touch the file.
-/

namespace Altbot

/-! ## `crypto/sha256` (FIPS 180-4), on bytes given as natural numbers -/

namespace Sha256

/-- Rotation of a 32-bit word to the right (`bits.RotateLeft32(x, -n)`). -/
def rotr (x n : Nat) : Nat := ((x >>> n) ||| (x <<< (32 - n))) % 4294967296

/-- The round constants `_K`. -/
def K : List Nat := [
  0x428A2F98, 0x71374491, 0xB5C0FBCF, 0xE9B5DBA5, 0x3956C25B, 0x59F111F1, 0x923F82A4, 0xAB1C5ED5,
  0xD807AA98, 0x12835B01, 0x243185BE, 0x550C7DC3, 0x72BE5D74, 0x80DEB1FE, 0x9BDC06A7, 0xC19BF174,
  0xE49B69C1, 0xEFBE4786, 0x0FC19DC6, 0x240CA1CC, 0x2DE92C6F, 0x4A7484AA, 0x5CB0A9DC, 0x76F988DA,
  0x983E5152, 0xA831C66D, 0xB00327C8, 0xBF597FC7, 0xC6E00BF3, 0xD5A79147, 0x06CA6351, 0x14292967,
  0x27B70A85, 0x2E1B2138, 0x4D2C6DFC, 0x53380D13, 0x650A7354, 0x766A0ABB, 0x81C2C92E, 0x92722C85,
  0xA2BFE8A1, 0xA81A664B, 0xC24B8B70, 0xC76C51A3, 0xD192E819, 0xD6990624, 0xF40E3585, 0x106AA070,
  0x19A4C116, 0x1E376C08, 0x2748774C, 0x34B0BCB5, 0x391C0CB3, 0x4ED8AA4A, 0x5B9CCA4F, 0x682E6FF3,
  0x748F82EE, 0x78A5636F, 0x84C87814, 0x8CC70208, 0x90BEFFFA, 0xA4506CEB, 0xBEF9A3F7, 0xC67178F2]

/-- The eight chaining words `h[0..7]` of a digest under construction. -/
structure Digest where
  h0 : Nat
  h1 : Nat
  h2 : Nat
  h3 : Nat
  h4 : Nat
  h5 : Nat
  h6 : Nat
  h7 : Nat
deriving DecidableEq, Repr

/-- The initial chaining value. -/
def init : Digest :=
  ⟨0x6A09E667, 0xBB67AE85, 0x3C6EF372, 0xA54FF53A, 0x510E527F, 0x9B05688C, 0x1F83D9AB, 0x5BE0CD19⟩

/-- The first `n` big-endian 32-bit words of a block. -/
def loadWords : Nat → List Nat → List Nat
  | 0, _ => []
  | n + 1, p =>
    ((p.getD 0 0 <<< 24) ||| (p.getD 1 0 <<< 16) ||| (p.getD 2 0 <<< 8) ||| p.getD 3 0)
      :: loadWords n (p.drop 4)

/-- Extends the message schedule `w` by `n` further words. -/
def schedule : Nat → List Nat → List Nat
  | 0, w => w
  | n + 1, w =>
    let i := w.length
    let v1 := w.getD (i - 2) 0
    let t1 := rotr v1 17 ^^^ rotr v1 19 ^^^ (v1 >>> 10)
    let v2 := w.getD (i - 15) 0
    let t2 := rotr v2 7 ^^^ rotr v2 18 ^^^ (v2 >>> 3)
    schedule n (w ++ [(t1 + w.getD (i - 7) 0 + t2 + w.getD (i - 16) 0) % 4294967296])

/-- One round of the compression function, on the working variables
`a, b, ..., h` held in the fields `h0, ..., h7`, with `kw = (_K[i], w[i])`. -/
def round (s : Digest) (kw : Nat × Nat) : Digest :=
  let t1 := (s.h7 + (rotr s.h4 6 ^^^ rotr s.h4 11 ^^^ rotr s.h4 25)
    + ((s.h4 &&& s.h5) ^^^ ((s.h4 ^^^ 4294967295) &&& s.h6)) + kw.1 + kw.2) % 4294967296
  let t2 := ((rotr s.h0 2 ^^^ rotr s.h0 13 ^^^ rotr s.h0 22)
    + ((s.h0 &&& s.h1) ^^^ (s.h0 &&& s.h2) ^^^ (s.h1 &&& s.h2))) % 4294967296
  ⟨(t1 + t2) % 4294967296, s.h0, s.h1, s.h2, (s.h3 + t1) % 4294967296, s.h4, s.h5, s.h6⟩

/-- The compression of one 64-byte block into the chaining value. -/
def block (d : Digest) (p : List Nat) : Digest :=
  let w := schedule 48 (loadWords 16 p)
  let s := (K.zip w).foldl round d
  ⟨(d.h0 + s.h0) % 4294967296, (d.h1 + s.h1) % 4294967296, (d.h2 + s.h2) % 4294967296,
   (d.h3 + s.h3) % 4294967296, (d.h4 + s.h4) % 4294967296, (d.h5 + s.h5) % 4294967296,
   (d.h6 + s.h6) % 4294967296, (d.h7 + s.h7) % 4294967296⟩

/-- Compresses the first `n` blocks of `p`. -/
def blocks : Nat → Digest → List Nat → Digest
  | 0, d, _ => d
  | n + 1, d, p => blocks n (block d (p.take 64)) (p.drop 64)

/-- Big-endian bytes of a 64-bit value. -/
def putUint64 (x : Nat) : List Nat :=
  [(x >>> 56) % 256, (x >>> 48) % 256, (x >>> 40) % 256, (x >>> 32) % 256,
   (x >>> 24) % 256, (x >>> 16) % 256, (x >>> 8) % 256, x % 256]

/-- The padding appended to a message of `len` bytes: `0x80`, zeros up to 56
modulo 64, then the bit length as a 64-bit big-endian value. -/
def pad (len : Nat) : List Nat :=
  let t := if len % 64 < 56 then 56 - len % 64 else 64 + 56 - len % 64
  (0x80 :: List.replicate (t - 1) 0) ++ putUint64 ((len <<< 3) % 18446744073709551616)

/-- Big-endian bytes of a 32-bit word. -/
def putUint32 (x : Nat) : List Nat :=
  [(x >>> 24) % 256, (x >>> 16) % 256, (x >>> 8) % 256, x % 256]

/-- The SHA-256 digest of `data` (what `hasher.Write(data); hasher.Sum(nil)`
returns on a fresh hasher). -/
def Sum256 (data : List Nat) : List Nat :=
  let p := data ++ pad data.length
  let d := blocks (p.length / 64) init p
  putUint32 d.h0 ++ putUint32 d.h1 ++ putUint32 d.h2 ++ putUint32 d.h3 ++
  putUint32 d.h4 ++ putUint32 d.h5 ++ putUint32 d.h6 ++ putUint32 d.h7

end Sha256

/-! ## `encoding/hex` and Go strings -/

/-- The digit table of `encoding/hex`. -/
def hextable : List Char := "0123456789abcdef".toList

/-- Hex rendering of a byte sequence (`hex.EncodeToString`): two digits per
byte, high nibble first. -/
def EncodeToString (src : List Nat) : String :=
  String.mk (src.flatMap fun v => [hextable.getD (v >>> 4) '0', hextable.getD (v &&& 0x0f) '0'])

/-- The bytes of a Go string (its UTF-8 encoding). -/
def goBytes (s : String) : List Nat := (s.data.flatMap String.utf8EncodeChar).map UInt8.toNat

/-- Go's `len` on a string: the number of bytes. -/
def goLen (s : String) : Nat := (goBytes s).length

/-- Translation of `hashUserID`: SHA-256 of the identifier, in hex. -/
def hashUserID (userID : String) : String := EncodeToString (Sha256.Sum256 (goBytes userID))

/-- A string of exactly 64 characters, each one of `0-9`, `a-f`. -/
def isDigest (s : String) : Prop := s.data.length = 64 ∧ ∀ c ∈ s.data, c ∈ hextable

instance (s : String) : Decidable (isDigest s) := by
  unfold isDigest; infer_instance

/-! ## Data model -/

/-- An instant (`time.Time`), in nanoseconds since the epoch. -/
abbrev Time := Int

/-- The values stored in `Details` (`interface{}`): strings, `int64`,
`float64` and booleans. -/
inductive Value where
  | str (s : String)
  | int (i : Int)
  | float (q : ℚ)
  | bool (b : Bool)
deriving DecidableEq

/-- A `map[string]interface{}`: `none` is the nil map, `some m` a map given by
its bindings, at most one per key. -/
abbrev Details := Option (List (String × Value))

/-- The assignment `m[k] = v` on a map. -/
def mapSet (m : List (String × Value)) (k : String) (v : Value) : List (String × Value) :=
  if m.any (fun kv => kv.1 == k) then m.map (fun kv => if kv.1 == k then (k, v) else kv)
  else m ++ [(k, v)]

/-- The lookup `m[k]`, `none` when the key is absent (or the map is nil). -/
def mapGet (d : Details) (k : String) : Option Value :=
  match d with
  | none => none
  | some m => m.lookup k

/-- Translation of `MetricEvent`. -/
structure MetricEvent where
  Timestamp : Time
  UserID : String
  EventType : String
  Details : Details
deriving DecidableEq

/-- Translation of `MetricsManager`. `logs` is the in-memory sequence;
`ticker` is true while the ticker is armed; `wg` is the counter of the wait
group, the number of background tasks that have not finished; `stopChan` is
true once the stop channel is closed. The mutex is not represented: every
operation below is one critical section. -/
structure MetricsManager where
  enabled : Bool
  logs : List MetricEvent
  filePath : String
  ticker : Bool
  wg : Nat
  stopChan : Bool
deriving DecidableEq

/-- A recorder together with the file at `mm.filePath`: `file` is the content
of that file, `none` when it does not exist. -/
structure World where
  mm : MetricsManager
  file : Option String
deriving DecidableEq

/-- The process-wide configuration read by `logSuccessfulGeneration`
(`config.PowerMetrics.Enabled`, `config.PowerMetrics.GPUWatts`,
`config.LLM.Provider`); it is declared outside `metrics.go`. -/
structure Config where
  powerMetricsEnabled : Bool
  gpuWatts : ℚ
  provider : String

/-- The JSON layer of the standard library, as used on `[]MetricEvent`:
`encode` is `json.NewEncoder(file)` with two-space indentation (`none` when
marshalling fails, before any byte is written), `decode` is `json.Unmarshal`
(`none` on a parse error). -/
structure Codec where
  encode : List MetricEvent → Option String
  decode : String → Option (List MetricEvent)

/-- What the file system does during one `saveToFile`: everything works, or
`os.OpenFile`, `Truncate`, `Seek` fails, or the write fails after `n`
characters. -/
inductive Fault where
  | ok
  | openFile
  | truncate
  | seek
  | write (n : Nat)
deriving DecidableEq

/-! ## Operations -/

/-- Translation of `saveToFile`: open (creating the file when missing),
truncate to length zero, seek to the start, then encode the whole of
`mm.logs`. Each failure returns at once, leaving the file as it is then. -/
def saveToFile (json : Codec) (_lock : Bool) (fault : Fault) (w : World) : World :=
  match fault with
  | Fault.openFile => w
  | Fault.truncate => { w with file := some (w.file.getD "") }
  | Fault.seek => { w with file := some "" }
  | Fault.write n =>
    match json.encode w.mm.logs with
    | none => { w with file := some "" }
    | some text => { w with file := some (text.take n) }
  | Fault.ok =>
    match json.encode w.mm.logs with
    | none => { w with file := some "" }
    | some text => { w with file := some text }

/-- Translation of `loadAndHashExistingData`. `readErr` says that
`os.ReadFile` fails; `fault` is the behaviour of the file system during the
save that follows a migration. -/
def loadAndHashExistingData (json : Codec) (readErr : Bool) (fault : Fault) (w : World) : World :=
  match w.file with
  | none => w
  | some content =>
    if readErr then w
    else
      match json.decode content with
      | none => w
      | some existingLogs =>
        let needsRehash := existingLogs.any (fun event => goLen event.UserID != 64)
        if needsRehash then
          let hashedLogs :=
            existingLogs.map (fun event => { event with UserID := hashUserID event.UserID })
          saveToFile json false fault { w with mm := { w.mm with logs := hashedLogs } }
        else
          { w with mm := { w.mm with logs := existingLogs } }

/-- Translation of `NewMetricsManager`, on the file content `file`. The result
is `none` when `time.NewTicker` panics, which it does for an interval that
is not positive. An enabled recorder starts its background task (`wg` becomes
one). -/
def NewMetricsManager (json : Codec) (enabled : Bool) (filePath : String) (interval : Int)
    (readErr : Bool) (fault : Fault) (file : Option String) : Option World :=
  if interval ≤ 0 then none
  else
    let mm : MetricsManager :=
      { enabled := enabled, logs := [], filePath := filePath, ticker := true, wg := 0,
        stopChan := false }
    if mm.enabled then
      let w := loadAndHashExistingData json readErr fault { mm := mm, file := file }
      some { w with mm := { w.mm with wg := w.mm.wg + 1 } }
    else
      some { mm := mm, file := file }

/-- Translation of `logEvent`; `now` is the value of `time.Now()`. -/
def logEvent (mm : MetricsManager) (now : Time) (userID eventType : String)
    (details : Details) : MetricsManager :=
  if !mm.enabled then mm
  else
    let event : MetricEvent :=
      { Timestamp := now, UserID := hashUserID userID, EventType := eventType,
        Details := details }
    { mm with logs := mm.logs ++ [event] }

/-- Translation of `logRequest`. -/
def logRequest (mm : MetricsManager) (now : Time) (userID : String) : MetricsManager :=
  logEvent mm now userID "request" none

/-- Translation of `logFollow`. -/
def logFollow (mm : MetricsManager) (now : Time) (userID : String) : MetricsManager :=
  logEvent mm now userID "follow" none

/-- Translation of `calculatePowerConsumption`, over the rationals. -/
def calculatePowerConsumption (processingTimeMs : Int) (gpuWatts : ℚ) : ℚ :=
  (gpuWatts * (processingTimeMs : ℚ)) / (1000 * 3600)

/-- The `details` map that `logSuccessfulGeneration` builds. -/
def successfulGenerationDetails (config : Config) (mediaType : String)
    (responseTimeMillis : Int) (lang : String) : List (String × Value) :=
  let details : List (String × Value) :=
    [("mediaType", Value.str mediaType), ("responseTime", Value.int responseTimeMillis),
     ("lang", Value.str lang)]
  if config.powerMetricsEnabled && config.provider != "gemini" then
    let powerConsumption := calculatePowerConsumption responseTimeMillis config.gpuWatts
    mapSet details "powerConsumptionKWh" (Value.float powerConsumption)
  else details

/-- Translation of `logSuccessfulGeneration`. -/
def logSuccessfulGeneration (config : Config) (mm : MetricsManager) (now : Time)
    (userID mediaType : String) (responseTimeMillis : Int) (lang : String) : MetricsManager :=
  logEvent mm now userID "successful_generation"
    (some (successfulGenerationDetails config mediaType responseTimeMillis lang))

/-- Translation of `logRateLimitHit`. -/
def logRateLimitHit (mm : MetricsManager) (now : Time) (userID : String) : MetricsManager :=
  logEvent mm now userID "rate_limit_hit" none

/-- Translation of `logNewAccountActivity`. -/
def logNewAccountActivity (mm : MetricsManager) (now : Time) (userID : String) :
    MetricsManager :=
  logEvent mm now userID "new_account_activity" none

/-- Translation of `logShadowBan`. -/
def logShadowBan (mm : MetricsManager) (now : Time) (userID : String) : MetricsManager :=
  logEvent mm now userID "shadow_ban" none

/-- Translation of `logUnBan`. -/
def logUnBan (mm : MetricsManager) (now : Time) (userID : String) : MetricsManager :=
  logEvent mm now userID "un_ban" none

/-- Translation of `logWeeklySummary`. -/
def logWeeklySummary (mm : MetricsManager) (now : Time) (userID : String) : MetricsManager :=
  logEvent mm now userID "weekly_summary" none

/-- Translation of `logMissingAltText`. -/
def logMissingAltText (mm : MetricsManager) (now : Time) (userID : String) : MetricsManager :=
  logEvent mm now userID "missing_alt_text" none

/-- Translation of `logAltTextReminderSent`. -/
def logAltTextReminderSent (mm : MetricsManager) (now : Time) (userID : String) :
    MetricsManager :=
  logEvent mm now userID "alt_text_reminder_sent" none

/-- Translation of `logConsentRequest`. -/
def logConsentRequest (mm : MetricsManager) (now : Time) (userID : String) (granted : Bool) :
    MetricsManager :=
  logEvent mm now userID "consent_request" (some [("granted", Value.bool granted)])

/-- A call of the logging API with its arguments. -/
inductive LogCall where
  | event (userID eventType : String) (details : Details)
  | request (userID : String)
  | follow (userID : String)
  | successfulGeneration (userID mediaType : String) (responseTimeMillis : Int) (lang : String)
  | rateLimitHit (userID : String)
  | newAccountActivity (userID : String)
  | shadowBan (userID : String)
  | unBan (userID : String)
  | weeklySummary (userID : String)
  | missingAltText (userID : String)
  | altTextReminderSent (userID : String)
  | consentRequest (userID : String) (granted : Bool)

/-- Performs a logging call at time `now`. -/
def LogCall.perform (config : Config) (mm : MetricsManager) (now : Time) :
    LogCall → MetricsManager
  | LogCall.event u t d => logEvent mm now u t d
  | LogCall.request u => logRequest mm now u
  | LogCall.follow u => logFollow mm now u
  | LogCall.successfulGeneration u mediaType ms lang =>
    logSuccessfulGeneration config mm now u mediaType ms lang
  | LogCall.rateLimitHit u => logRateLimitHit mm now u
  | LogCall.newAccountActivity u => logNewAccountActivity mm now u
  | LogCall.shadowBan u => logShadowBan mm now u
  | LogCall.unBan u => logUnBan mm now u
  | LogCall.weeklySummary u => logWeeklySummary mm now u
  | LogCall.missingAltText u => logMissingAltText mm now u
  | LogCall.altTextReminderSent u => logAltTextReminderSent mm now u
  | LogCall.consentRequest u granted => logConsentRequest mm now u granted

/-! ## The background task -/

/-- The `ticker.C` case of the select in `run`: one flush. -/
def runTick (json : Codec) (fault : Fault) (w : World) : World :=
  saveToFile json true fault w

/-- The `stopChan` case of the select in `run`: the ticker is stopped, one
last flush is made, and the task returns (the deferred `wg.Done()`). -/
def runStop (json : Codec) (fault : Fault) (w : World) : World :=
  let w1 : World := { w with mm := { w.mm with ticker := false } }
  let w2 := saveToFile json true fault w1
  { w2 with mm := { w2.mm with wg := w2.mm.wg - 1 } }

/-- Translation of `stop`: `close(mm.stopChan)`, which panics (`none`) on a
channel that is already closed, then `mm.wg.Wait()`, which returns once the
background task, if there is one, has taken the `stopChan` case. -/
def stop (json : Codec) (fault : Fault) (w : World) : Option World :=
  if w.mm.stopChan then none
  else
    let w1 : World := { w with mm := { w.mm with stopChan := true } }
    if w1.mm.wg = 0 then some w1 else some (runStop json fault w1)

/-- The atomic steps of a recorder: a logging call at a given time, a tick of
the timer, a call of `stop`. The fault is that of the flush the step makes,
if it makes one. -/
inductive Action where
  | log (now : Time) (call : LogCall)
  | tick (fault : Fault)
  | stop (fault : Fault)

/-- One step. A tick is received only by a live background task with an armed
ticker. -/
def step (json : Codec) (config : Config) (w : World) : Action → Option World
  | Action.log now call => some { w with mm := call.perform config w.mm now }
  | Action.tick fault =>
    if w.mm.wg = 0 ∨ w.mm.ticker = false then some w else some (runTick json fault w)
  | Action.stop fault => stop json fault w

/-- A sequence of steps, ended by the first panic. -/
def steps (json : Codec) (config : Config) : World → List Action → Option World
  | w, [] => some w
  | w, a :: rest =>
    match step json config w a with
    | none => none
    | some w1 => steps json config w1 rest

/-- The state Running of the flush loop: the background task is alive and no
stop has been signalled. -/
def Running (w : World) : Prop := w.mm.wg = 1 ∧ w.mm.stopChan = false ∧ w.mm.ticker = true

/-- The state Stopped: no background task is left. -/
def Stopped (w : World) : Prop := w.mm.wg = 0

/-! ## Concrete data for the examples -/

/-- A file format for the concrete examples: it reads the one document `text`
as the record list `doc`, rejects every other text, and writes a sequence as
one line per record. -/
def exampleCodec (text : String) (doc : List MetricEvent) : Codec where
  encode l := some (String.intercalate "\n" (l.map fun e => e.UserID ++ " " ++ e.EventType))
  decode c := if c = text then some doc else none

/-- A file written before identifiers were anonymized. -/
def legacyFile : String :=
  "[\x7b\"Timestamp\":\"2024-01-01T00:00:00Z\",\"UserID\":\"plainuser123\",\"EventType\":\"request\",\"Details\":null\x7d]"

/-- The record list of `legacyFile`. -/
def legacyLogs : List MetricEvent :=
  [{ Timestamp := 1704067200000000000, UserID := "plainuser123", EventType := "request",
     Details := none }]

/-- A recorder as `NewMetricsManager` leaves it when enabled on a missing
file: empty sequence, background task running. -/
def freshWorld : World :=
  { mm := { enabled := true, logs := [], filePath := "metrics.json", ticker := true, wg := 1,
            stopChan := false },
    file := none }

/-- A file whose only record carries a raw identifier that happens to be 64
bytes long. -/
def longIDFile : String :=
  "[\x7b\"Timestamp\":\"2024-01-01T00:00:00Z\",\"UserID\":\"an-account-with-a-rather-long-name-01234@instance.example.social\",\"EventType\":\"request\",\"Details\":null\x7d]"

/-- The record list of `longIDFile`. -/
def longIDLogs : List MetricEvent :=
  [{ Timestamp := 1704067200000000000,
     UserID := "an-account-with-a-rather-long-name-01234@instance.example.social",
     EventType := "request", Details := none }]

/-- A file with one raw identifier and one identifier that is already the
digest of `alice`. -/
def mixedFile : String :=
  "[\x7b\"Timestamp\":\"2024-01-01T00:00:00Z\",\"UserID\":\"plainuser123\",\"EventType\":\"request\",\"Details\":null\x7d,\x7b\"Timestamp\":\"2024-01-02T00:00:00Z\",\"UserID\":\"2bd806c97f0e00af1a1fc3328fa763a9269723c8db8fac4f93af71db186d6e90\",\"EventType\":\"follow\",\"Details\":null\x7d]"

/-- The record list of `mixedFile`. -/
def mixedLogs : List MetricEvent :=
  [{ Timestamp := 1704067200000000000, UserID := "plainuser123", EventType := "request",
     Details := none },
   { Timestamp := 1704153600000000000,
     UserID := "2bd806c97f0e00af1a1fc3328fa763a9269723c8db8fac4f93af71db186d6e90",
     EventType := "follow", Details := none }]

/-- A file in which every identifier is a digest already. -/
def digestFile : String :=
  "[\x7b\"Timestamp\":\"2024-01-02T00:00:00Z\",\"UserID\":\"2bd806c97f0e00af1a1fc3328fa763a9269723c8db8fac4f93af71db186d6e90\",\"EventType\":\"follow\",\"Details\":null\x7d]"

/-- The record list of `digestFile`. -/
def digestLogs : List MetricEvent :=
  [{ Timestamp := 1704153600000000000,
     UserID := "2bd806c97f0e00af1a1fc3328fa763a9269723c8db8fac4f93af71db186d6e90",
     EventType := "follow", Details := none }]

/-- A file whose only record carries a raw identifier of 32 characters, each
of two bytes, so 64 bytes in all. -/
def accentFile : String :=
  "[\x7b\"Timestamp\":\"2024-01-01T00:00:00Z\",\"UserID\":\"éééééééééééééééééééééééééééééééé\",\"EventType\":\"request\",\"Details\":null\x7d]"

/-- The record list of `accentFile`. -/
def accentLogs : List MetricEvent :=
  [{ Timestamp := 1704067200000000000, UserID := "éééééééééééééééééééééééééééééééé",
     EventType := "request", Details := none }]

/-- One minute, as a `time.Duration`. -/
def minute : Int := 60000000000

/-! ## The anonymizer -/

set_option maxRecDepth 100000

/-- A digest has 32 bytes. -/
theorem Sha256.Sum256_length (data : List Nat) : (Sha256.Sum256 data).length = 32 := by
  simp [Sha256.Sum256, Sha256.putUint32]

/-- Every byte of a digest is below 256. -/
theorem Sha256.Sum256_lt (data : List Nat) : ∀ b ∈ Sha256.Sum256 data, b < 256 := by
  intro b hb
  simp only [Sha256.Sum256, Sha256.putUint32, List.mem_append, List.mem_cons,
    List.mem_singleton, List.not_mem_nil, or_false] at hb
  omega

/-- Every entry read from the digit table is a hex digit. -/
theorem hextable_getD_mem (n : Nat) : hextable.getD n '0' ∈ hextable := by
  by_cases h : n < 16
  · interval_cases n <;> decide
  · have h16 : hextable.length ≤ n := by
      have : hextable.length = 16 := by decide
      omega
    rw [List.getD_eq_default _ _ h16]
    decide

/-- For a byte, both table indices are in range, so the default of the lookup
is never used. -/
theorem hextable_index_lt (v : Nat) (hv : v < 256) :
    v >>> 4 < hextable.length ∧ v &&& 0x0f < hextable.length := by
  have hl : hextable.length = 16 := by decide
  rw [hl, Nat.shiftRight_eq_div_pow]
  refine ⟨by omega, ?_⟩
  have : v &&& 15 = v % 2 ^ 4 := Nat.and_pow_two_sub_one_eq_mod v 4
  omega

/-- Hex encoding doubles the length. -/
theorem EncodeToString_length (src : List Nat) :
    (EncodeToString src).data.length = 2 * src.length := by
  unfold EncodeToString
  induction src with
  | nil => rfl
  | cons v rest ih =>
    simp only [List.flatMap_cons, List.length_append, List.length_cons, List.length_nil] at ih ⊢
    omega

/-- Hex encoding produces hex digits only. -/
theorem EncodeToString_hex (src : List Nat) : ∀ c ∈ (EncodeToString src).data, c ∈ hextable := by
  intro c hc
  simp only [EncodeToString, List.mem_flatMap, List.mem_cons, List.mem_singleton,
    List.not_mem_nil, or_false] at hc
  obtain ⟨v, _, h | h⟩ := hc <;> rw [h] <;> exact hextable_getD_mem _

/-- A string of hex digits has as many bytes as characters. -/
theorem goLen_of_hex (s : String) (h : ∀ c ∈ s.data, c ∈ hextable) : goLen s = s.data.length := by
  have h1 : ∀ c ∈ hextable, (String.utf8EncodeChar c).length = 1 := by decide
  unfold goLen goBytes
  rw [List.length_map]
  generalize s.data = cs at h
  induction cs with
  | nil => rfl
  | cons c rest ih =>
    have hc := h1 c (h c (List.mem_cons_self _ _))
    have hr := ih (fun d hd => h d (List.mem_cons_of_mem _ hd))
    simp only [List.flatMap_cons, List.length_append, List.length_cons, hc, hr]
    omega

/-- The result of `hashUserID` is a digest string. -/
theorem hashUserID_isDigest (u : String) : isDigest (hashUserID u) := by
  refine ⟨?_, EncodeToString_hex _⟩
  unfold hashUserID
  rw [EncodeToString_length, Sha256.Sum256_length]

/-- The result of `hashUserID` has Go length 64. -/
theorem goLen_hashUserID (u : String) : goLen (hashUserID u) = 64 := by
  rw [goLen_of_hex _ (hashUserID_isDigest u).2]
  exact (hashUserID_isDigest u).1

/-- Known answer: the digest of the empty string. -/
theorem hashUserID_empty :
    hashUserID "" = "e3b0c44298fc1c149afbf4c8996fb92427ae41e4649b934ca495991b7852b855" := by
  decide

/-- Known answer: the FIPS 180-4 one-block message. -/
theorem hashUserID_abc :
    hashUserID "abc" = "ba7816bf8f01cfea414140de5dae2223b00361a396177a9cb410ff61f20015ad" := by
  decide

/-- Known answer: the FIPS 180-4 two-block message. -/
theorem hashUserID_two_blocks :
    hashUserID "abcdbcdecdefdefgefghfghighijhijkijkljklmklmnlmnomnopnopq"
      = "248d6a61d20638b8e5c026930c3e6039a33ce45964ff2167f6ecedd419db06c1" := by
  decide

/-- C6: for every string `u`, the empty one included, `hashUserID u` is the
hex encoding of the SHA-256 digest of the bytes of `u`, a digest of 32 bytes,
each below 256; the result has exactly 64 characters (and 64 bytes), every
character is one of `0-9`, `a-f`, and equal inputs give equal results. The
function is total, so it always succeeds. -/
theorem hashUserID_spec (u : String) :
    hashUserID u = EncodeToString (Sha256.Sum256 (goBytes u))
    ∧ (Sha256.Sum256 (goBytes u)).length = 32
    ∧ (∀ b ∈ Sha256.Sum256 (goBytes u), b < 256)
    ∧ (hashUserID u).length = 64
    ∧ goLen (hashUserID u) = 64
    ∧ (∀ c ∈ (hashUserID u).data, c ∈ "0123456789abcdef".data)
    ∧ (∀ v : String, v = u → hashUserID v = hashUserID u)
    ∧ hashUserID "" = "e3b0c44298fc1c149afbf4c8996fb92427ae41e4649b934ca495991b7852b855" :=
  ⟨rfl, Sha256.Sum256_length _, Sha256.Sum256_lt _, (hashUserID_isDigest u).1,
    goLen_hashUserID u, (hashUserID_isDigest u).2, fun _ h => by rw [h], hashUserID_empty⟩

/-! ## Logging -/

/-- What `logEvent` does to the recorder, in one equation. -/
theorem logEvent_eq (mm : MetricsManager) (now : Time) (u t : String) (d : Details) :
    logEvent mm now u t d =
      if mm.enabled = true then
        { mm with logs := mm.logs ++
            [{ Timestamp := now, UserID := hashUserID u, EventType := t, Details := d }] }
      else mm := by
  unfold logEvent
  cases h : mm.enabled <;> simp

/-- Every logging call is a call of `logEvent`. -/
theorem LogCall.perform_eq_logEvent (config : Config) (mm : MetricsManager) (now : Time)
    (call : LogCall) : ∃ u t d, call.perform config mm now = logEvent mm now u t d := by
  cases call <;> exact ⟨_, _, _, rfl⟩

/-- Known answer: the digest of `alice`. -/
theorem hashUserID_alice :
    hashUserID "alice" = "2bd806c97f0e00af1a1fc3328fa763a9269723c8db8fac4f93af71db186d6e90" := by
  decide

/-- C1: on an enabled recorder with sequence `L`, `logEvent u t d` leaves the
sequence equal to `L` followed by exactly one record, with `UserID`
`hashUserID u`, event type `t` and details `d` (stamped with the current
time); nothing else of the recorder changes, and the step leaves the file as
it was. After construction on a missing file, `logRequest "alice"` gives a
sequence of one record with event type `request`, identifier
`hashUserID "alice"` and no details. -/
theorem logEvent_appends (json : Codec) (config : Config) (w : World) (now : Time)
    (u t : String) (d : Details) (h : w.mm.enabled = true) :
    logEvent w.mm now u t d =
        { w.mm with logs := w.mm.logs ++
            [{ Timestamp := now, UserID := hashUserID u, EventType := t, Details := d }] }
    ∧ (logEvent w.mm now u t d).logs.length = w.mm.logs.length + 1
    ∧ (logEvent w.mm now u t d).logs.take w.mm.logs.length = w.mm.logs
    ∧ (∃ w1, step json config w (Action.log now (LogCall.event u t d)) = some w1
        ∧ w1.mm = logEvent w.mm now u t d ∧ w1.file = w.file)
    ∧ (∀ (filePath : String) (interval : Int) (readErr : Bool) (fault : Fault), 0 < interval →
        ∃ w0, NewMetricsManager json true filePath interval readErr fault none = some w0
          ∧ w0.file = none
          ∧ (logRequest w0.mm now "alice").logs =
              [{ Timestamp := now, UserID := hashUserID "alice", EventType := "request",
                 Details := none }]) := by
  have e := logEvent_eq w.mm now u t d
  rw [if_pos h] at e
  refine ⟨e, by rw [e]; simp, by rw [e]; simp, ⟨_, rfl, rfl, rfl⟩, ?_⟩
  intro filePath interval readErr fault hi
  refine ⟨{ mm := { enabled := true, logs := [], filePath := filePath, ticker := true, wg := 1,
                    stopChan := false }, file := none },
    by simp [NewMetricsManager, not_le.mpr hi, loadAndHashExistingData], rfl, ?_⟩
  simp [logRequest, logEvent_eq]

/-- C1 at a concrete recorder: a fresh enabled recorder logging `alice`. -/
theorem logEvent_appends_witness :
    freshWorld.mm.enabled = true
    ∧ (logEvent freshWorld.mm 1704067200000000000 "alice" "request" none).logs =
        [{ Timestamp := 1704067200000000000,
           UserID := "2bd806c97f0e00af1a1fc3328fa763a9269723c8db8fac4f93af71db186d6e90",
           EventType := "request", Details := none }] := by
  refine ⟨rfl, ?_⟩
  have h := (logEvent_appends (exampleCodec legacyFile legacyLogs) ⟨false, 0, ""⟩ freshWorld
    1704067200000000000 "alice" "request" none rfl).1
  rw [h, hashUserID_alice]
  rfl

/-- C7: a recorder constructed with `enabled = false` has an empty sequence,
no background task, and the file it was given, whatever that file holds and
whatever the file system would do; and on every disabled recorder every
logging call, with any arguments, returns the recorder unchanged and leaves
the file unchanged. -/
theorem disabled_recorder_inert (json : Codec) (config : Config) (filePath : String)
    (interval : Int) (readErr : Bool) (fault : Fault) (file : Option String)
    (h : 0 < interval) :
    NewMetricsManager json false filePath interval readErr fault file =
        some { mm := { enabled := false, logs := [], filePath := filePath, ticker := true,
                       wg := 0, stopChan := false },
               file := file }
    ∧ (∀ w : World, w.mm.enabled = false →
        (∀ now u t d, logEvent w.mm now u t d = w.mm)
        ∧ (∀ now u, logRequest w.mm now u = w.mm)
        ∧ (∀ now u, logFollow w.mm now u = w.mm)
        ∧ (∀ now u mediaType ms lang,
            logSuccessfulGeneration config w.mm now u mediaType ms lang = w.mm)
        ∧ (∀ now u, logRateLimitHit w.mm now u = w.mm)
        ∧ (∀ now u, logNewAccountActivity w.mm now u = w.mm)
        ∧ (∀ now u, logShadowBan w.mm now u = w.mm)
        ∧ (∀ now u, logUnBan w.mm now u = w.mm)
        ∧ (∀ now u, logWeeklySummary w.mm now u = w.mm)
        ∧ (∀ now u, logMissingAltText w.mm now u = w.mm)
        ∧ (∀ now u, logAltTextReminderSent w.mm now u = w.mm)
        ∧ (∀ now u granted, logConsentRequest w.mm now u granted = w.mm)
        ∧ (∀ now call, step json config w (Action.log now call) = some w)) := by
  refine ⟨by simp [NewMetricsManager, not_le.mpr h], ?_⟩
  intro w hw
  have key : ∀ now u t d, logEvent w.mm now u t d = w.mm := by
    intro now u t d
    rw [logEvent_eq, if_neg (by simp [hw])]
  refine ⟨key, fun _ _ => key _ _ _ _, fun _ _ => key _ _ _ _, fun _ _ _ _ _ => key _ _ _ _,
    fun _ _ => key _ _ _ _, fun _ _ => key _ _ _ _, fun _ _ => key _ _ _ _,
    fun _ _ => key _ _ _ _, fun _ _ => key _ _ _ _, fun _ _ => key _ _ _ _,
    fun _ _ => key _ _ _ _, fun _ _ _ => key _ _ _ _, ?_⟩
  intro now call
  obtain ⟨u, t, d, e⟩ := call.perform_eq_logEvent config w.mm now
  simp only [step, e, key]

/-- C7 at a concrete input: a disabled recorder over the legacy file. -/
theorem disabled_recorder_inert_witness :
    (0 : Int) < 60000000000
    ∧ NewMetricsManager (exampleCodec legacyFile legacyLogs) false "metrics.json" 60000000000
        false Fault.ok (some legacyFile) =
        some { mm := { enabled := false, logs := [], filePath := "metrics.json", ticker := true,
                       wg := 0, stopChan := false },
               file := some legacyFile } :=
  ⟨by decide,
   (disabled_recorder_inert (exampleCodec legacyFile legacyLogs) ⟨true, 250, "local-gpu"⟩
      "metrics.json" 60000000000 false Fault.ok (some legacyFile) (by decide)).1⟩

/-! ## Successful generations and the power formula -/

/-- C8: on an enabled recorder, `logSuccessfulGeneration u mediaType ms lang`
appends one record of event type `successful_generation` whose details hold
`mediaType`, `responseTime = ms` and `lang`; the details hold the key
`powerConsumptionKWh` exactly when power metrics are enabled and the provider
is not `gemini`, and then its value is `(gpuWatts × ms) / (1000 × 3600)`;
otherwise the key is absent. -/
theorem logSuccessfulGeneration_details (config : Config) (mm : MetricsManager) (now : Time)
    (u mediaType : String) (ms : Int) (lang : String) (h : mm.enabled = true) :
    ∃ e : MetricEvent,
      (logSuccessfulGeneration config mm now u mediaType ms lang).logs = mm.logs ++ [e]
      ∧ e.EventType = "successful_generation"
      ∧ e.UserID = hashUserID u
      ∧ e.Timestamp = now
      ∧ mapGet e.Details "mediaType" = some (Value.str mediaType)
      ∧ mapGet e.Details "responseTime" = some (Value.int ms)
      ∧ mapGet e.Details "lang" = some (Value.str lang)
      ∧ ((mapGet e.Details "powerConsumptionKWh").isSome = true ↔
          (config.powerMetricsEnabled = true ∧ config.provider ≠ "gemini"))
      ∧ ((config.powerMetricsEnabled = true ∧ config.provider ≠ "gemini") →
          mapGet e.Details "powerConsumptionKWh" =
            some (Value.float ((config.gpuWatts * (ms : ℚ)) / (1000 * 3600))))
      ∧ (¬ (config.powerMetricsEnabled = true ∧ config.provider ≠ "gemini") →
          mapGet e.Details "powerConsumptionKWh" = none) := by
  refine ⟨{ Timestamp := now, UserID := hashUserID u, EventType := "successful_generation",
            Details := some (successfulGenerationDetails config mediaType ms lang) },
    by simp [logSuccessfulGeneration, logEvent_eq, h], rfl, rfl, rfl, ?_⟩
  by_cases hc : config.powerMetricsEnabled = true ∧ config.provider ≠ "gemini"
  · have hb : (config.powerMetricsEnabled && config.provider != "gemini") = true := by
      simp [hc.1, hc.2]
    simp only [successfulGenerationDetails, hb, if_true]
    simp [mapGet, mapSet, List.lookup, calculatePowerConsumption, hc]
  · have hb : (config.powerMetricsEnabled && config.provider != "gemini") = false := by
      rcases Bool.eq_false_or_eq_true config.powerMetricsEnabled with h1 | h1
      · by_cases h2 : config.provider = "gemini"
        · simp [h2]
        · exact absurd ⟨h1, h2⟩ hc
      · simp [h1]
    simp only [successfulGenerationDetails, hb]
    simp [mapGet, List.lookup, hc]

/-- C8 at the two scenarios of the specification: 250 W, 1500 ms, provider
`local-gpu` stores `375000 / 3600000`; provider `gemini` stores no such key. -/
theorem logSuccessfulGeneration_details_witness :
    freshWorld.mm.enabled = true
    ∧ (∃ e : MetricEvent,
        (logSuccessfulGeneration ⟨true, 250, "local-gpu"⟩ freshWorld.mm 0 "bob" "image" 1500
            "en").logs = freshWorld.mm.logs ++ [e]
        ∧ mapGet e.Details "powerConsumptionKWh" = some (Value.float (375000 / 3600000)))
    ∧ (∃ e : MetricEvent,
        (logSuccessfulGeneration ⟨true, 250, "gemini"⟩ freshWorld.mm 0 "bob" "image" 1500
            "en").logs = freshWorld.mm.logs ++ [e]
        ∧ mapGet e.Details "powerConsumptionKWh" = none) := by
  refine ⟨rfl, ?_, ?_⟩
  · obtain ⟨e, h1, _, _, _, _, _, _, _, h9, _⟩ :=
      logSuccessfulGeneration_details ⟨true, 250, "local-gpu"⟩ freshWorld.mm 0 "bob" "image"
        1500 "en" rfl
    refine ⟨e, h1, ?_⟩
    rw [h9 ⟨rfl, by decide⟩]
    norm_num
  · obtain ⟨e, h1, _, _, _, _, _, _, _, _, h10⟩ :=
      logSuccessfulGeneration_details ⟨true, 250, "gemini"⟩ freshWorld.mm 0 "bob" "image"
        1500 "en" rfl
    exact ⟨e, h1, h10 (by simp)⟩

/-- C9 as stated fails: for 250 W over 1500 ms the function returns `5/48`
(about 0.104), while 0.25 kW over 1500/3600000 h is `1/9600` kWh (about
0.000104); the stored value is a thousand times the kilowatt-hour figure. -/
theorem calculatePowerConsumption_not_kWh :
    calculatePowerConsumption 1500 250 = 5 / 48
    ∧ ((250 : ℚ) / 1000) * ((1500 : ℚ) / 3600000) = 1 / 9600
    ∧ ¬ (∀ (ms : Int) (w : ℚ), 0 ≤ ms → 0 ≤ w →
          calculatePowerConsumption ms w = (w / 1000) * ((ms : ℚ) / 3600000)) := by
  refine ⟨by norm_num [calculatePowerConsumption], by norm_num, ?_⟩
  intro hall
  have h := hall 1500 250 (by norm_num) (by norm_num)
  norm_num [calculatePowerConsumption] at h

/-- C9, amended: over the rationals, `calculatePowerConsumption ms w` is the
energy in watt-hours of `w` watts drawn for `ms` milliseconds, that is `w`
watts times `ms / 3 600 000` hours, which is 1000 times the kilowatt-hour
figure; and the function is linear in each argument. -/
theorem calculatePowerConsumption_wattHours (ms : Int) (w : ℚ) :
    calculatePowerConsumption ms w = w * ((ms : ℚ) / 3600000)
    ∧ calculatePowerConsumption ms w = 1000 * ((w / 1000) * ((ms : ℚ) / 3600000))
    ∧ (∀ (a b ms2 : Int), calculatePowerConsumption (a * ms + b * ms2) w =
          a * calculatePowerConsumption ms w + b * calculatePowerConsumption ms2 w)
    ∧ (∀ (a b w2 : ℚ), calculatePowerConsumption ms (a * w + b * w2) =
          a * calculatePowerConsumption ms w + b * calculatePowerConsumption ms w2) := by
  refine ⟨?_, ?_, ?_, ?_⟩
  · unfold calculatePowerConsumption; ring
  · unfold calculatePowerConsumption; ring
  · intro a b ms2
    unfold calculatePowerConsumption
    push_cast
    ring
  · intro a b w2
    unfold calculatePowerConsumption
    ring

/-! ## Construction and migration -/

/-- The flush never touches the recorder. -/
theorem saveToFile_mm (json : Codec) (lock : Bool) (fault : Fault) (w : World) :
    (saveToFile json lock fault w).mm = w.mm := by
  unfold saveToFile
  cases fault <;> simp only <;> split <;> rfl

/-- A flush without fault writes the encoding of the whole sequence. -/
theorem saveToFile_ok (json : Codec) (lock : Bool) (w : World) (text : String)
    (h : json.encode w.mm.logs = some text) :
    (saveToFile json lock Fault.ok w).file = some text := by
  simp only [saveToFile, h]

/-- Construction of an enabled recorder on a file that parses to `l` with an
identifier whose length is not 64: every record is rehashed and the result
is saved. -/
theorem construct_migrate (json : Codec) (filePath : String) (interval : Int) (fault : Fault)
    (content : String) (l : List MetricEvent) (hi : 0 < interval)
    (hd : json.decode content = some l) (hn : ∃ e ∈ l, goLen e.UserID ≠ 64) :
    NewMetricsManager json true filePath interval false fault (some content) =
      some { mm := { enabled := true,
                     logs := l.map (fun e => { e with UserID := hashUserID e.UserID }),
                     filePath := filePath, ticker := true, wg := 1, stopChan := false },
             file := (saveToFile json false fault
               { mm := { enabled := true,
                         logs := l.map (fun e => { e with UserID := hashUserID e.UserID }),
                         filePath := filePath, ticker := true, wg := 0, stopChan := false },
                 file := some content }).file } := by
  have hany : l.any (fun event => goLen event.UserID != 64) = true := by
    obtain ⟨e, he, hne⟩ := hn
    exact List.any_eq_true.mpr ⟨e, he, by simpa using hne⟩
  simp only [NewMetricsManager, not_le.mpr hi, if_false, if_true, loadAndHashExistingData, hd,
    hany, Bool.false_eq_true, saveToFile_mm]

/-- Construction of an enabled recorder on a file that parses to `l` with all
identifiers of length 64: the list is taken as it is and nothing is saved. -/
theorem construct_keep (json : Codec) (filePath : String) (interval : Int) (fault : Fault)
    (content : String) (l : List MetricEvent) (hi : 0 < interval)
    (hd : json.decode content = some l) (hall : ∀ e ∈ l, goLen e.UserID = 64) :
    NewMetricsManager json true filePath interval false fault (some content) =
      some { mm := { enabled := true, logs := l, filePath := filePath, ticker := true, wg := 1,
                     stopChan := false },
             file := some content } := by
  have hany : l.any (fun event => goLen event.UserID != 64) = false := by
    rw [List.any_eq_false]
    intro e he
    simp [hall e he]
  simp only [NewMetricsManager, not_le.mpr hi, if_false, if_true, loadAndHashExistingData, hd,
    hany, Bool.false_eq_true]

/-- Construction of an enabled recorder always succeeds for a positive
interval, and its sequence is empty, or the loaded list with every
identifier rehashed, or the loaded list itself when all its identifiers have
length 64. -/
theorem construct_cases (json : Codec) (filePath : String) (interval : Int) (readErr : Bool)
    (fault : Fault) (file : Option String) (hi : 0 < interval) :
    ∃ w0, NewMetricsManager json true filePath interval readErr fault file = some w0
      ∧ w0.mm.enabled = true
      ∧ (w0.mm.logs = []
        ∨ ∃ content l, file = some content ∧ json.decode content = some l
            ∧ (w0.mm.logs = l.map (fun e => { e with UserID := hashUserID e.UserID })
               ∨ ((∀ e ∈ l, goLen e.UserID = 64) ∧ w0.mm.logs = l ∧ w0.file = file))) := by
  have hempty : ∀ f : Option String,
      (∃ w0 : World, w0 = { mm := { enabled := true, logs := [], filePath := filePath,
                                    ticker := true, wg := 1, stopChan := false }, file := f }
        ∧ w0.mm.enabled = true ∧ w0.mm.logs = []) := fun f => ⟨_, rfl, rfl, rfl⟩
  cases file with
  | none =>
    obtain ⟨w0, e, h1, h2⟩ := hempty none
    exact ⟨w0, by rw [e]; simp [NewMetricsManager, not_le.mpr hi, loadAndHashExistingData], h1,
      Or.inl h2⟩
  | some content =>
    obtain ⟨w0, e, h1, h2⟩ := hempty (some content)
    cases readErr with
    | true =>
      exact ⟨w0, by rw [e]; simp [NewMetricsManager, not_le.mpr hi, loadAndHashExistingData], h1,
        Or.inl h2⟩
    | false =>
      cases hd : json.decode content with
      | none =>
        exact ⟨w0, by rw [e]; simp [NewMetricsManager, not_le.mpr hi, loadAndHashExistingData, hd],
          h1, Or.inl h2⟩
      | some l =>
        by_cases hn : ∃ e ∈ l, goLen e.UserID ≠ 64
        · exact ⟨_, construct_migrate json filePath interval fault content l hi hd hn, rfl,
            Or.inr ⟨content, l, rfl, hd, Or.inl rfl⟩⟩
        · have hall : ∀ e ∈ l, goLen e.UserID = 64 := by
            intro e he
            by_contra hne
            exact hn ⟨e, he, hne⟩
          exact ⟨_, construct_keep json filePath interval fault content l hi hd hall, rfl,
            Or.inr ⟨content, l, rfl, hd, Or.inr ⟨hall, rfl, rfl⟩⟩⟩

/-- An enabled recorder is in state Running after construction. -/
theorem construct_running (json : Codec) (filePath : String) (interval : Int) (readErr : Bool)
    (fault : Fault) (file : Option String) (hi : 0 < interval) :
    ∃ w0, NewMetricsManager json true filePath interval readErr fault file = some w0
      ∧ Running w0 := by
  have hload : ∀ w : World,
      (loadAndHashExistingData json readErr fault w).mm =
        { w.mm with logs := (loadAndHashExistingData json readErr fault w).mm.logs } := by
    intro w
    unfold loadAndHashExistingData
    split
    · rfl
    · split
      · rfl
      · split
        · rfl
        · dsimp only
          split
          · rw [saveToFile_mm]
          · rfl
  refine ⟨_, by simp only [NewMetricsManager, not_le.mpr hi, if_false, if_true]; rfl, ?_⟩
  unfold Running
  dsimp only
  rw [hload]
  exact ⟨rfl, rfl, rfl⟩

/-- A step keeps every property of the records that all records made by
`logEvent` have. -/
theorem step_logs (json : Codec) (config : Config) (P : MetricEvent → Prop)
    (hP : ∀ now u t d, P { Timestamp := now, UserID := hashUserID u, EventType := t,
                            Details := d })
    (w : World) (a : Action) (w1 : World) (hs : step json config w a = some w1)
    (hw : ∀ e ∈ w.mm.logs, P e) : ∀ e ∈ w1.mm.logs, P e := by
  cases a with
  | log now call =>
    obtain ⟨u, t, d, e⟩ := call.perform_eq_logEvent config w.mm now
    simp only [step, e, logEvent_eq, Option.some.injEq] at hs
    subst hs
    by_cases hen : w.mm.enabled = true
    · simp only [hen, if_true, List.mem_append, List.mem_singleton]
      rintro x (hx | hx)
      · exact hw x hx
      · rw [hx]; exact hP _ _ _ _
    · simpa only [hen, if_false] using hw
  | tick fault =>
    simp only [step, runTick] at hs
    split at hs
    · simp only [Option.some.injEq] at hs
      subst hs; exact hw
    · simp only [Option.some.injEq] at hs
      subst hs
      rw [saveToFile_mm]; exact hw
  | stop fault =>
    simp only [step, stop, runStop] at hs
    split at hs
    · exact absurd hs (by simp)
    · split at hs
      · simp only [Option.some.injEq] at hs
        subst hs; exact hw
      · simp only [Option.some.injEq] at hs
        subst hs
        simp only [saveToFile_mm]; exact hw

/-- The same along a sequence of steps. -/
theorem steps_logs (json : Codec) (config : Config) (P : MetricEvent → Prop)
    (hP : ∀ now u t d, P { Timestamp := now, UserID := hashUserID u, EventType := t,
                            Details := d })
    (actions : List Action) : ∀ (w w1 : World), steps json config w actions = some w1 →
      (∀ e ∈ w.mm.logs, P e) → ∀ e ∈ w1.mm.logs, P e := by
  induction actions with
  | nil =>
    intro w w1 hs hw
    simp only [steps, Option.some.injEq] at hs
    subst hs; exact hw
  | cons a rest ih =>
    intro w w1 hs hw
    simp only [steps] at hs
    cases h : step json config w a with
    | none => simp [h] at hs
    | some w2 =>
      simp only [h] at hs
      exact ih w2 w1 hs (step_logs json config P hP w a w2 h hw)

/-- A sequence of logging calls never panics. -/
theorem steps_log_total (json : Codec) (config : Config) (calls : List (Time × LogCall)) :
    ∀ w : World, ∃ w1,
      steps json config w (calls.map fun c => Action.log c.1 c.2) = some w1 := by
  induction calls with
  | nil => exact fun w => ⟨w, rfl⟩
  | cons c rest ih =>
    intro w
    simp only [List.map_cons, steps, step]
    exact ih _

/-- Known answer: the digest of `plainuser123`. -/
theorem hashUserID_plainuser123 :
    hashUserID "plainuser123"
      = "888e15e45d48d1208a7f3ca65002732d97697f46f1a570e6e5daac19aac5cf9b" := by
  decide

/-- Known answer: the digest of the hex digest of `alice`. -/
theorem hashUserID_alice_twice :
    hashUserID "2bd806c97f0e00af1a1fc3328fa763a9269723c8db8fac4f93af71db186d6e90"
      = "77555306307cbe22a6ee527f56c73377eebe0c6f0e649d393d917fa96fea30ed" := by
  decide

/-- C2, at the failing input: a file whose record carries a raw identifier of
64 bytes passes the test `len(event.UserID) != 64` and is loaded as it is,
so an enabled recorder holds a record whose `UserID` is that raw identifier,
which is not a string of 64 hex digits, although `loadAndHashExistingData`
is documented to ensure that all user IDs are hashed. -/
theorem raw_identifier_of_length_64_is_kept :
    ∃ w0, NewMetricsManager (exampleCodec longIDFile longIDLogs) true "metrics.json" minute
        false Fault.ok (some longIDFile) = some w0
      ∧ w0.mm.logs.map (fun e => e.UserID) =
          ["an-account-with-a-rather-long-name-01234@instance.example.social"]
      ∧ goLen "an-account-with-a-rather-long-name-01234@instance.example.social" = 64
      ∧ ¬ (∀ e ∈ w0.mm.logs, isDigest e.UserID) := by
  refine ⟨_, construct_keep (exampleCodec longIDFile longIDLogs) "metrics.json" minute Fault.ok
    longIDFile longIDLogs (by decide) (by simp [exampleCodec]) (by decide), rfl, by decide, ?_⟩
  decide

/-- Where the digest invariant does hold: for an enabled recorder constructed
from any file (missing, unreadable, unparseable or parseable) and then taken
through any sequence of steps, every record of the in-memory sequence has a
`UserID` of length 64; and unless the file parses to a list whose
identifiers all have length 64 without all being strings of 64 hex digits,
every `UserID` in memory is a string of 64 hex digits. A sequence of logging
calls always runs to its end. -/
theorem recorder_userIDs (json : Codec) (config : Config) (filePath : String) (interval : Int)
    (readErr : Bool) (fault : Fault) (file : Option String) (hi : 0 < interval) :
    ∃ w0, NewMetricsManager json true filePath interval readErr fault file = some w0
      ∧ (∀ calls : List (Time × LogCall), ∃ w1,
          steps json config w0 (calls.map fun c => Action.log c.1 c.2) = some w1)
      ∧ ∀ (actions : List Action) (w1 : World), steps json config w0 actions = some w1 →
          (∀ e ∈ w1.mm.logs, goLen e.UserID = 64)
          ∧ ((∀ content l, file = some content → json.decode content = some l →
                (∀ e ∈ l, goLen e.UserID = 64) → ∀ e ∈ l, isDigest e.UserID) →
              ∀ e ∈ w1.mm.logs, isDigest e.UserID) := by
  obtain ⟨w0, h0, _, hl⟩ := construct_cases json filePath interval readErr fault file hi
  refine ⟨w0, h0, fun calls => steps_log_total json config calls w0, ?_⟩
  intro actions w1 hs
  constructor
  · refine steps_logs json config (fun e => goLen e.UserID = 64)
      (fun _ u _ _ => goLen_hashUserID u) actions w0 w1 hs ?_
    rcases hl with hl | ⟨content, l, _, _, hl | ⟨hall, hl, _⟩⟩
    · simp [hl]
    · rw [hl]
      intro e he
      obtain ⟨x, _, rfl⟩ := List.mem_map.mp he
      exact goLen_hashUserID _
    · rw [hl]; exact hall
  · intro hfile
    refine steps_logs json config (fun e => isDigest e.UserID)
      (fun _ u _ _ => hashUserID_isDigest u) actions w0 w1 hs ?_
    rcases hl with hl | ⟨content, l, hf, hd, hl | ⟨hall, hl, _⟩⟩
    · simp [hl]
    · rw [hl]
      intro e he
      obtain ⟨x, _, rfl⟩ := List.mem_map.mp he
      exact hashUserID_isDigest _
    · rw [hl]
      exact hfile content l hf hd hall

/-- The length invariant at a concrete input: the legacy file, then one
request. -/
theorem recorder_userIDs_witness :
    (0 : Int) < minute
    ∧ ∃ w0, NewMetricsManager (exampleCodec legacyFile legacyLogs) true "metrics.json" minute
        false Fault.ok (some legacyFile) = some w0
      ∧ ∀ w1, steps (exampleCodec legacyFile legacyLogs) ⟨false, 0, "gemini"⟩ w0
          [Action.log 1704240000000000000 (LogCall.request "alice")] = some w1 →
          ∀ e ∈ w1.mm.logs, goLen e.UserID = 64 := by
  refine ⟨by decide, ?_⟩
  obtain ⟨w0, h0, _, h⟩ := recorder_userIDs (exampleCodec legacyFile legacyLogs)
    ⟨false, 0, "gemini"⟩ "metrics.json" minute false Fault.ok (some legacyFile) (by decide)
  exact ⟨w0, h0, fun w1 hs => (h _ w1 hs).1⟩

/-- Migration where the test of the code fires: for every file that parses to
a list `l` holding at least one identifier whose length in bytes is not 64,
construction of an enabled recorder succeeds, every record in memory has a
`UserID` of exactly 64 hex digits, the sequence has the length and order of
`l` with the timestamp, event type and details of each record unchanged, and
when the save succeeds the file content is the serialization of the
migrated sequence. -/
theorem migration_correct (json : Codec) (filePath : String) (interval : Int) (fault : Fault)
    (content : String) (l : List MetricEvent) (hi : 0 < interval)
    (hd : json.decode content = some l) (hn : ∃ e ∈ l, goLen e.UserID ≠ 64) :
    ∃ w0, NewMetricsManager json true filePath interval false fault (some content) = some w0
      ∧ (∀ e ∈ w0.mm.logs, isDigest e.UserID ∧ goLen e.UserID = 64)
      ∧ w0.mm.logs.length = l.length
      ∧ w0.mm.logs.map (fun e => e.Timestamp) = l.map (fun e => e.Timestamp)
      ∧ w0.mm.logs.map (fun e => e.EventType) = l.map (fun e => e.EventType)
      ∧ w0.mm.logs.map (fun e => e.Details) = l.map (fun e => e.Details)
      ∧ (∀ text, fault = Fault.ok → json.encode w0.mm.logs = some text →
          w0.file = some text) := by
  refine ⟨_, construct_migrate json filePath interval fault content l hi hd hn, ?_, ?_, ?_, ?_,
    ?_, ?_⟩
  · intro e he
    obtain ⟨x, _, rfl⟩ := List.mem_map.mp he
    exact ⟨hashUserID_isDigest _, goLen_hashUserID _⟩
  · simp
  · simp [List.map_map, Function.comp_def]
  · simp [List.map_map, Function.comp_def]
  · simp [List.map_map, Function.comp_def]
  · intro text hf henc
    subst hf
    exact saveToFile_ok json false _ text henc

/-- The migration at the input of Scenario 4: a file with one record whose
`UserID` is `plainuser123`. -/
theorem migration_correct_witness :
    (0 : Int) < minute
    ∧ (exampleCodec legacyFile legacyLogs).decode legacyFile = some legacyLogs
    ∧ (∃ e ∈ legacyLogs, goLen e.UserID ≠ 64)
    ∧ ∃ w0, NewMetricsManager (exampleCodec legacyFile legacyLogs) true "metrics.json" minute
        false Fault.ok (some legacyFile) = some w0
      ∧ (∀ e ∈ w0.mm.logs, isDigest e.UserID ∧ goLen e.UserID = 64)
      ∧ w0.mm.logs.length = legacyLogs.length := by
  have hd : (exampleCodec legacyFile legacyLogs).decode legacyFile = some legacyLogs := by
    simp [exampleCodec]
  have hn : ∃ e ∈ legacyLogs, goLen e.UserID ≠ 64 :=
    ⟨_, List.mem_cons_self _ _, by decide⟩
  obtain ⟨w0, h0, h1, h2, _⟩ := migration_correct (exampleCodec legacyFile legacyLogs)
    "metrics.json" minute Fault.ok legacyFile legacyLogs (by decide) hd hn
  exact ⟨by decide, hd, hn, w0, h0, h1, h2⟩

/-- The legacy file after construction: the record carries the digest of
`plainuser123` and the file has been rewritten with it. -/
theorem legacy_file_migrated :
    NewMetricsManager (exampleCodec legacyFile legacyLogs) true "metrics.json" minute
        false Fault.ok (some legacyFile) =
      some { mm := { enabled := true,
                     logs := [{ Timestamp := 1704067200000000000,
                                UserID := "888e15e45d48d1208a7f3ca65002732d97697f46f1a570e6e5daac19aac5cf9b",
                                EventType := "request", Details := none }],
                     filePath := "metrics.json", ticker := true, wg := 1, stopChan := false },
             file := some "888e15e45d48d1208a7f3ca65002732d97697f46f1a570e6e5daac19aac5cf9b request" } := by
  rw [construct_migrate (exampleCodec legacyFile legacyLogs) "metrics.json" minute Fault.ok
    legacyFile legacyLogs (by decide) (by simp [exampleCodec])
    ⟨_, List.mem_cons_self _ _, by decide⟩]
  simp only [legacyLogs, List.map, hashUserID_plainuser123, saveToFile, exampleCodec]
  rfl

/-- C3, at the failing input: the only record of the file has a `UserID` of
32 characters, so one that is not 64 characters long, but of 64 bytes. The
test `len(event.UserID) != 64` counts bytes and does not fire: construction
keeps the raw identifier in memory, it is not a string of 64 hex digits, and
the file is not rewritten. -/
theorem migration_skips_64_byte_identifier :
    (∃ e ∈ accentLogs, e.UserID.length ≠ 64)
    ∧ accentLogs.map (fun e => (e.UserID.length, goLen e.UserID)) = [(32, 64)]
    ∧ ∃ w0, NewMetricsManager (exampleCodec accentFile accentLogs) true "metrics.json" minute
        false Fault.ok (some accentFile) = some w0
      ∧ w0.mm.logs = accentLogs
      ∧ w0.file = some accentFile
      ∧ ¬ (∀ e ∈ w0.mm.logs, isDigest e.UserID) := by
  refine ⟨⟨_, List.mem_cons_self _ _, by decide⟩, by decide, _,
    construct_keep (exampleCodec accentFile accentLogs) "metrics.json" minute Fault.ok
      accentFile accentLogs (by decide) (by simp [exampleCodec]) (by decide), rfl, rfl, ?_⟩
  decide

/-- C4 as stated fails: in a file with one raw identifier and one identifier
that is already a 64-character digest, the migration replaces the digest too,
by the digest of the digest. -/
theorem migration_rehashes_digests :
    (∃ e ∈ mixedLogs, goLen e.UserID ≠ 64)
    ∧ mixedLogs.map (fun e => e.UserID) =
        ["plainuser123", "2bd806c97f0e00af1a1fc3328fa763a9269723c8db8fac4f93af71db186d6e90"]
    ∧ goLen "2bd806c97f0e00af1a1fc3328fa763a9269723c8db8fac4f93af71db186d6e90" = 64
    ∧ ∃ w0, NewMetricsManager (exampleCodec mixedFile mixedLogs) true "metrics.json" minute
        false Fault.ok (some mixedFile) = some w0
      ∧ w0.mm.logs.map (fun e => e.UserID) =
          ["888e15e45d48d1208a7f3ca65002732d97697f46f1a570e6e5daac19aac5cf9b",
           "77555306307cbe22a6ee527f56c73377eebe0c6f0e649d393d917fa96fea30ed"]
      ∧ ¬ (∀ (i : Nat) (e e1 : MetricEvent), mixedLogs[i]? = some e → w0.mm.logs[i]? = some e1 →
            goLen e.UserID = 64 → e1.UserID = e.UserID) := by
  have hn : ∃ e ∈ mixedLogs, goLen e.UserID ≠ 64 := ⟨_, List.mem_cons_self _ _, by decide⟩
  refine ⟨hn, rfl, by decide, _, construct_migrate (exampleCodec mixedFile mixedLogs)
    "metrics.json" minute Fault.ok mixedFile mixedLogs (by decide) (by simp [exampleCodec]) hn,
    ?_, ?_⟩
  · simp only [mixedLogs, List.map, hashUserID_plainuser123, hashUserID_alice_twice]
  · intro hall
    have h := hall 1 _ _ rfl rfl (by decide)
    simp only [hashUserID_alice_twice] at h
    exact absurd h (by decide)

/-- C4, amended: for every loaded list that triggers the migration, every
record, whether or not its stored `UserID` already has length 64, gets its
`UserID` replaced by `hashUserID` of the stored one; the other fields stay. -/
theorem migration_hashes_every_record (json : Codec) (filePath : String) (interval : Int)
    (fault : Fault) (content : String) (l : List MetricEvent) (hi : 0 < interval)
    (hd : json.decode content = some l) (hn : ∃ e ∈ l, goLen e.UserID ≠ 64) :
    ∃ w0, NewMetricsManager json true filePath interval false fault (some content) = some w0
      ∧ w0.mm.logs = l.map (fun e => { e with UserID := hashUserID e.UserID })
      ∧ ∀ (i : Nat) (e : MetricEvent), l[i]? = some e →
          w0.mm.logs[i]? = some { e with UserID := hashUserID e.UserID } := by
  refine ⟨_, construct_migrate json filePath interval fault content l hi hd hn, rfl, ?_⟩
  intro i e he
  simp [List.getElem?_map, he]

/-- C4, amended, at the mixed file. -/
theorem migration_hashes_every_record_witness :
    (0 : Int) < minute
    ∧ (exampleCodec mixedFile mixedLogs).decode mixedFile = some mixedLogs
    ∧ (∃ e ∈ mixedLogs, goLen e.UserID ≠ 64)
    ∧ ∃ w0, NewMetricsManager (exampleCodec mixedFile mixedLogs) true "metrics.json" minute
        false Fault.ok (some mixedFile) = some w0
      ∧ w0.mm.logs = mixedLogs.map (fun e => { e with UserID := hashUserID e.UserID }) := by
  have hd : (exampleCodec mixedFile mixedLogs).decode mixedFile = some mixedLogs := by
    simp [exampleCodec]
  have hn : ∃ e ∈ mixedLogs, goLen e.UserID ≠ 64 := ⟨_, List.mem_cons_self _ _, by decide⟩
  obtain ⟨w0, h0, h1, _⟩ := migration_hashes_every_record (exampleCodec mixedFile mixedLogs)
    "metrics.json" minute Fault.ok mixedFile mixedLogs (by decide) hd hn
  exact ⟨by decide, hd, hn, w0, h0, h1⟩

/-- C5: for every file that parses to a list `l` in which every `UserID` has
length 64, construction of an enabled recorder sets the in-memory sequence to
`l` itself and leaves the file as it was, whatever the file system would do
on a write. And the sequence left by any construction has only identifiers of
length 64, so loading a file that parses to it changes neither the sequence
nor that file. -/
theorem migration_idempotent (json : Codec) (filePath : String) (interval : Int) (fault : Fault)
    (content : String) (l : List MetricEvent) (hi : 0 < interval)
    (hd : json.decode content = some l) (hall : ∀ e ∈ l, goLen e.UserID = 64) :
    (∃ w0, NewMetricsManager json true filePath interval false fault (some content) = some w0
      ∧ w0.mm.logs = l ∧ w0.file = some content)
    ∧ (∀ (readErr : Bool) (fault1 fault2 : Fault) (file1 : Option String) (content2 : String),
        ∃ w1, NewMetricsManager json true filePath interval readErr fault1 file1 = some w1
          ∧ (json.decode content2 = some w1.mm.logs →
              loadAndHashExistingData json false fault2 { mm := w1.mm, file := some content2 } =
                { mm := w1.mm, file := some content2 })) := by
  refine ⟨⟨_, construct_keep json filePath interval fault content l hi hd hall, rfl, rfl⟩, ?_⟩
  intro readErr fault1 fault2 file1 content2
  obtain ⟨w1, h1, _, hl⟩ := construct_cases json filePath interval readErr fault1 file1 hi
  refine ⟨w1, h1, ?_⟩
  intro hd2
  have h64 : ∀ e ∈ w1.mm.logs, goLen e.UserID = 64 := by
    rcases hl with hl | ⟨c, l1, _, _, hl | ⟨h, hl, _⟩⟩
    · simp [hl]
    · rw [hl]
      intro e he
      obtain ⟨x, _, rfl⟩ := List.mem_map.mp he
      exact goLen_hashUserID _
    · rw [hl]; exact h
  have hany : w1.mm.logs.any (fun event => goLen event.UserID != 64) = false := by
    rw [List.any_eq_false]
    intro e he
    simp [h64 e he]
  simp only [loadAndHashExistingData, hd2, hany, Bool.false_eq_true, if_false]

/-- C5 at a concrete input: a file whose only record carries a digest. -/
theorem migration_idempotent_witness :
    (0 : Int) < minute
    ∧ (exampleCodec digestFile digestLogs).decode digestFile = some digestLogs
    ∧ (∀ e ∈ digestLogs, goLen e.UserID = 64)
    ∧ ∃ w0, NewMetricsManager (exampleCodec digestFile digestLogs) true "metrics.json" minute
        false Fault.ok (some digestFile) = some w0
      ∧ w0.mm.logs = digestLogs ∧ w0.file = some digestFile := by
  have hd : (exampleCodec digestFile digestLogs).decode digestFile = some digestLogs := by
    simp [exampleCodec]
  have hall : ∀ e ∈ digestLogs, goLen e.UserID = 64 := by decide
  exact ⟨by decide, hd, hall,
    (migration_idempotent (exampleCodec digestFile digestLogs) "metrics.json" minute Fault.ok
      digestFile digestLogs (by decide) hd hall).1⟩

/-! ## The flush loop -/

/-- From Stopped, a step writes nothing and stays in Stopped. -/
theorem step_stopped (json : Codec) (config : Config) (w : World) (a : Action) (w1 : World)
    (hw : Stopped w) (hs : step json config w a = some w1) :
    w1.file = w.file ∧ Stopped w1 := by
  unfold Stopped at hw ⊢
  cases a with
  | log now call =>
    obtain ⟨u, t, d, e⟩ := call.perform_eq_logEvent config w.mm now
    simp only [step, e, logEvent_eq, Option.some.injEq] at hs
    subst hs
    refine ⟨rfl, ?_⟩
    by_cases hen : w.mm.enabled = true
    · simpa only [hen, if_true] using hw
    · simpa only [hen, if_false] using hw
  | tick fault =>
    simp only [step, hw, true_or, if_true, Option.some.injEq] at hs
    subst hs
    exact ⟨rfl, hw⟩
  | stop fault =>
    simp only [step, stop] at hs
    split at hs
    · exact absurd hs (by simp)
    · simp only [hw, if_true, Option.some.injEq] at hs
      subst hs
      exact ⟨rfl, rfl⟩

/-- From Stopped, no sequence of steps writes the file. -/
theorem steps_stopped (json : Codec) (config : Config) (actions : List Action) :
    ∀ (w w1 : World), Stopped w → steps json config w actions = some w1 →
      w1.file = w.file ∧ Stopped w1 := by
  induction actions with
  | nil =>
    intro w w1 hw hs
    simp only [steps, Option.some.injEq] at hs
    subst hs
    exact ⟨rfl, hw⟩
  | cons a rest ih =>
    intro w w1 hw hs
    simp only [steps] at hs
    cases h : step json config w a with
    | none => simp [h] at hs
    | some w2 =>
      simp only [h] at hs
      obtain ⟨hf, hst⟩ := step_stopped json config w a w2 hw h
      obtain ⟨hf1, hst1⟩ := ih w2 w1 hst hs
      exact ⟨hf1.trans hf, hst1⟩

/-- C10: from Running with sequence `L`, the stop step with a succeeding save
returns and moves to Stopped, with the file content equal to the
serialization of the whole of `L`, whatever the file held before, and with
`L` unchanged. From every Stopped state no step writes the file: after any
further steps the file content is still the serialization of `L` as of the
stop. Logging calls and ticks after the stop always return. -/
theorem stop_flushes_then_file_is_frozen (json : Codec) (config : Config) (w : World)
    (text : String) (hr : Running w) (henc : json.encode w.mm.logs = some text) :
    (∃ w1, step json config w (Action.stop Fault.ok) = some w1
      ∧ Stopped w1 ∧ w1.file = some text ∧ w1.mm.logs = w.mm.logs
      ∧ w1.mm.ticker = false ∧ w1.mm.stopChan = true
      ∧ (∀ (actions : List Action) (w2 : World), steps json config w1 actions = some w2 →
          w2.file = some text ∧ Stopped w2)
      ∧ (∀ (now : Time) (call : LogCall) (fault : Fault),
          (∃ w2, step json config w1 (Action.log now call) = some w2 ∧ w2.file = some text)
          ∧ step json config w1 (Action.tick fault) = some w1))
    ∧ (∀ (v : World) (actions : List Action) (v1 : World), Stopped v →
        steps json config v actions = some v1 → v1.file = v.file) := by
  obtain ⟨hwg, hch, _⟩ := hr
  have hfile : (saveToFile json true Fault.ok
      { mm := { w.mm with stopChan := true, ticker := false }, file := w.file }).file
        = some text := saveToFile_ok json true _ text henc
  refine ⟨⟨runStop json Fault.ok { w with mm := { w.mm with stopChan := true } }, ?_, ?_, ?_, ?_,
    ?_, ?_, ?_, ?_⟩, ?_⟩
  · simp [step, stop, hch, hwg]
  · simp [Stopped, runStop, saveToFile_mm, hwg]
  · simpa [runStop] using hfile
  · simp [runStop, saveToFile_mm]
  · simp [runStop, saveToFile_mm]
  · simp [runStop, saveToFile_mm]
  · intro actions w2 hs
    have hst : Stopped (runStop json Fault.ok { w with mm := { w.mm with stopChan := true } }) := by
      simp [Stopped, runStop, saveToFile_mm, hwg]
    obtain ⟨hf, hs2⟩ := steps_stopped json config actions _ w2 hst hs
    refine ⟨?_, hs2⟩
    rw [hf]
    simpa [runStop] using hfile
  · intro now call fault
    refine ⟨⟨_, rfl, ?_⟩, ?_⟩
    · simpa [runStop] using hfile
    · simp [step, runStop, saveToFile_mm, hwg]
  · intro v actions v1 hv hs
    exact (steps_stopped json config actions v v1 hv hs).1

/-- C10 at a concrete input: a fresh recorder logs one request and is
stopped; the file then holds the one-line rendering of that record, and a
later tick and a later request leave it there. -/
theorem stop_flushes_then_file_is_frozen_witness :
    Running { freshWorld with mm := logRequest freshWorld.mm 0 "alice" }
    ∧ ∃ w1, step (exampleCodec legacyFile legacyLogs) ⟨false, 0, "gemini"⟩
        { freshWorld with mm := logRequest freshWorld.mm 0 "alice" } (Action.stop Fault.ok)
          = some w1
      ∧ Stopped w1
      ∧ w1.file = some "2bd806c97f0e00af1a1fc3328fa763a9269723c8db8fac4f93af71db186d6e90 request"
      ∧ ∀ w2, steps (exampleCodec legacyFile legacyLogs) ⟨false, 0, "gemini"⟩ w1
          [Action.tick Fault.ok, Action.log 1 (LogCall.request "bob")] = some w2 →
          w2.file = some "2bd806c97f0e00af1a1fc3328fa763a9269723c8db8fac4f93af71db186d6e90 request" := by
  have hr : Running { freshWorld with mm := logRequest freshWorld.mm 0 "alice" } :=
    ⟨rfl, rfl, rfl⟩
  have henc : (exampleCodec legacyFile legacyLogs).encode
      ({ freshWorld with mm := logRequest freshWorld.mm 0 "alice" } : World).mm.logs
        = some "2bd806c97f0e00af1a1fc3328fa763a9269723c8db8fac4f93af71db186d6e90 request" := by
    simp only [logRequest, logEvent_eq, freshWorld, if_true, List.nil_append, exampleCodec,
      List.map, hashUserID_alice]
    rfl
  obtain ⟨⟨w1, h1, h2, h3, _, _, _, h7, _⟩, _⟩ :=
    stop_flushes_then_file_is_frozen (exampleCodec legacyFile legacyLogs) ⟨false, 0, "gemini"⟩
      { freshWorld with mm := logRequest freshWorld.mm 0 "alice" } _ hr henc
  exact ⟨hr, w1, h1, h2, h3, fun w2 hs => (h7 _ w2 hs).1⟩

end Altbot
